import Mathlib

/-!
Shallow embedding of `src/js/main.js` (yamamotok/fractal-tree).

The source draws a recursive fractal tree on a canvas.  Its pieces:

* `Point`, `Tree` — the branch descriptor (`root`, `trunkHeight`,
  `branchRatio`, `branchAngle`, `treeIncline`) with computed points
  `p0`..`p3` (class `Tree`, lines 1–58);
* `GardenDirector` — the scheduler: a FIFO `trees` queue, the
  `maxTrunkHeight` threshold computed once in the constructor as
  `trees[0].trunkHeight * trees[0].branchRatio ** 7` (line 93), the
  per-tick `work()` (lines 100–107) that shifts the front tree, discards
  it when `trunkHeight < maxTrunkHeight`, otherwise draws it
  (`drawTree`, three stroked segments) and enqueues its two children
  (`planNextTrees`, lines 138–149);
* page-level `start()` / `stop()` (lines 174–185) together with
  `run()` / `retire()` (lines 154–168), driven by
  `window.setInterval(…, 10)` / `window.clearInterval`.

Numbers are modelled by an arbitrary linear ordered field `K`
(instantiated at `ℚ` for executable runs and at `ℝ` for the statements
that mention `π`); JavaScript's ambient `Math.PI`, `Math.cos`,
`Math.sin` are passed explicitly as a `MathEnv` record.  The canvas is
modelled by the list of stroked segments (`beginPath`/`moveTo`/`lineTo`/
`stroke` produce one `Seg`; `clearRect` over the whole canvas empties
the list).  `window` (the interval registry and the `gardenDirector`
global) is the `Page` record.
-/

namespace FractalTree

/-- `class Point` (main.js lines 1–11). -/
structure Point (K : Type*) where
  x : K
  y : K
  deriving DecidableEq, Repr

/-- JavaScript's ambient `Math` object: `Math.PI`, `Math.cos`, `Math.sin`
as used by `main.js`. -/
structure MathEnv (K : Type*) where
  PI : K
  cos : K → K
  sin : K → K

/-- `class Tree` (main.js lines 16–58): the branch descriptor. -/
structure Tree (K : Type*) where
  root : Point K
  trunkHeight : K
  branchRatio : K
  branchAngle : K
  treeIncline : K
  deriving DecidableEq, Repr

variable {K : Type*}

instance [Zero K] : Inhabited (Point K) := ⟨⟨0, 0⟩⟩

instance [Zero K] : Inhabited (Tree K) := ⟨⟨⟨0, 0⟩, 0, 0, 0, 0⟩⟩

/-- `get p0()` (lines 32–34). -/
def Tree.p0 (t : Tree K) : Point K := t.root

/-- `get p1()` (lines 36–41): `a = treeIncline - PI/2`,
`(cos(a)*trunkHeight + p0.x, sin(a)*trunkHeight + p0.y)`. -/
def Tree.p1 [Field K] (M : MathEnv K) (t : Tree K) : Point K :=
  let a := t.treeIncline - M.PI / 2
  ⟨M.cos a * t.trunkHeight + t.p0.x, M.sin a * t.trunkHeight + t.p0.y⟩

/-- `get p2()` (lines 43–49): `a = branchAngle/2 - treeIncline`,
`branchLength = trunkHeight * branchRatio`,
`(p1.x - sin(a)*branchLength, p1.y - cos(a)*branchLength)`. -/
def Tree.p2 [Field K] (M : MathEnv K) (t : Tree K) : Point K :=
  let a := t.branchAngle / 2 - t.treeIncline
  let branchLength := t.trunkHeight * t.branchRatio
  ⟨(t.p1 M).x - M.sin a * branchLength, (t.p1 M).y - M.cos a * branchLength⟩

/-- `get p3()` (lines 51–57): `a = branchAngle/2 + treeIncline`,
`(p1.x + sin(a)*branchLength, p1.y - cos(a)*branchLength)`. -/
def Tree.p3 [Field K] (M : MathEnv K) (t : Tree K) : Point K :=
  let a := t.branchAngle / 2 + t.treeIncline
  let branchLength := t.trunkHeight * t.branchRatio
  ⟨(t.p1 M).x + M.sin a * branchLength, (t.p1 M).y - M.cos a * branchLength⟩

/-- One stroked path on the canvas: stroke style plus the `moveTo` and
`lineTo` endpoints (`drawTree` issues three of these per tree). -/
structure Seg (K : Type*) where
  style : String
  a : Point K
  b : Point K
  deriving DecidableEq, Repr

/-- `GardenDirector.drawTree` (lines 113–132), as the list of segments it
strokes: trunk `p0→p1` and left branch `p1→p2` in `'#333344'`, right
branch `p1→p3` in `'#AA3340'`. -/
def drawTree [Field K] (M : MathEnv K) (t : Tree K) : List (Seg K) :=
  [⟨"#333344", t.p0, t.p1 M⟩, ⟨"#333344", t.p1 M, t.p2 M⟩, ⟨"#AA3340", t.p1 M, t.p3 M⟩]

/-- The state of a `GardenDirector` (lines 87–95): the pending `trees`
queue, the `maxTrunkHeight` threshold and the `timerId`.  The canvas
context it draws on is passed alongside. -/
structure GardenDirector (K : Type*) where
  trees : List (Tree K)
  maxTrunkHeight : K
  timerId : Option Nat
  deriving DecidableEq

/-- The `GardenDirector` constructor (lines 88–95): copies the spec's
initial trees and computes, once,
`maxTrunkHeight = trees[0].trunkHeight * trees[0].branchRatio ** 7`. -/
def mkDirector [Field K] (init : List (Tree K)) : GardenDirector K :=
  { trees := init
    maxTrunkHeight := init.headI.trunkHeight * init.headI.branchRatio ^ 7
    timerId := none }

/-- The left child built by `planNextTrees` (lines 138–149): root `p1`,
`trunkHeight * branchRatio`, same ratio and angle,
incline `treeIncline - branchAngle/2`. -/
def nextLeft [Field K] (M : MathEnv K) (t : Tree K) : Tree K :=
  ⟨t.p1 M, t.trunkHeight * t.branchRatio, t.branchRatio, t.branchAngle,
    t.treeIncline - t.branchAngle / 2⟩

/-- The right child built by `planNextTrees` (lines 138–149): as
`nextLeft` but incline `treeIncline + branchAngle/2`. -/
def nextRight [Field K] (M : MathEnv K) (t : Tree K) : Tree K :=
  ⟨t.p1 M, t.trunkHeight * t.branchRatio, t.branchRatio, t.branchAngle,
    t.treeIncline + t.branchAngle / 2⟩

/-- `GardenDirector.work` (lines 100–107), one scheduler tick: shift the
front tree (no-op on an empty queue); if its `trunkHeight` is below
`maxTrunkHeight` discard it, else draw it and push its two children at
the tail (`planNextTrees` pushes left then right).  Returns the updated
director and canvas. -/
def work [LinearOrderedField K] (M : MathEnv K) (d : GardenDirector K)
    (canvas : List (Seg K)) : GardenDirector K × List (Seg K) :=
  match d.trees with
  | [] => (d, canvas)
  | t :: rest =>
    if t.trunkHeight < d.maxTrunkHeight then
      ({ d with trees := rest }, canvas)
    else
      ({ d with trees := rest ++ [nextLeft M t, nextRight M t] },
        canvas ++ drawTree M t)

/-- `n` scheduler ticks: iterate `work` on the director/canvas pair. -/
def stepN [LinearOrderedField K] (M : MathEnv K) (n : Nat)
    (s : GardenDirector K × List (Seg K)) : GardenDirector K × List (Seg K) :=
  (fun s => work M s.1 s.2)^[n] s

/-- Director state together with the canvas and a ghost counter of how
many descriptors were ever placed on the queue (the root counts once;
each drawn tree places two children). -/
structure CState (K : Type*) where
  director : GardenDirector K
  canvas : List (Seg K)
  placed : Nat
  deriving DecidableEq

/-- `work` on a `CState`, additionally counting enqueued descriptors. -/
def cstep [LinearOrderedField K] (M : MathEnv K) (s : CState K) : CState K :=
  match s.director.trees with
  | [] => s
  | t :: rest =>
    if t.trunkHeight < s.director.maxTrunkHeight then
      ⟨{ s.director with trees := rest }, s.canvas, s.placed⟩
    else
      ⟨{ s.director with trees := rest ++ [nextLeft M t, nextRight M t] },
        s.canvas ++ drawTree M t, s.placed + 2⟩

/-- The `window` state: the `gardenDirector` global, the canvas element's
current contents, the registered intervals as `(id, delay)` pairs, and
the next interval id the browser would hand out. -/
structure Page (K : Type*) where
  gardenDirector : Option (GardenDirector K)
  canvas : List (Seg K)
  intervals : List (Nat × Nat)
  nextId : Nat
  deriving DecidableEq

/-- `window.setInterval(cb, delay)`: registers a new interval and returns
its id. -/
def setInterval (delay : Nat) (p : Page K) : Nat × Page K :=
  (p.nextId,
    { p with intervals := p.intervals ++ [(p.nextId, delay)], nextId := p.nextId + 1 })

/-- `window.clearInterval(id)`: removes the interval with that id. -/
def clearInterval (id : Nat) (p : Page K) : Page K :=
  { p with intervals := p.intervals.filter (fun e => e.1 ≠ id) }

/-- `GardenDirector.run` (lines 154–156):
`this.timerId = window.setInterval(() => this.work(), 10)`. -/
def run (d : GardenDirector K) (p : Page K) : GardenDirector K × Page K :=
  let r := setInterval 10 p
  ({ d with timerId := some r.1 }, r.2)

/-- `GardenDirector.retire` (lines 161–168): clear the interval if one is
registered, null the timer id, empty the `trees` queue, and
`clearRect` the whole canvas. -/
def retire (d : GardenDirector K) (p : Page K) : GardenDirector K × Page K :=
  let p1 := match d.timerId with
    | some id => clearInterval id p
    | none => p
  (⟨[], d.maxTrunkHeight, none⟩, { p1 with canvas := [] })

/-- `function start()` (lines 174–177):
`window.gardenDirector ||= new GardenDirector(); window.gardenDirector.run()`.
The configuration the `GardenSpec` would read from the form is passed as
the initial tree list. -/
def start [Field K] (init : List (Tree K)) (p : Page K) : Page K :=
  let d := p.gardenDirector.getD (mkDirector init)
  let r := run d p
  { r.2 with gardenDirector := some r.1 }

/-- `function stop()` (lines 182–185):
`window.gardenDirector?.retire(); window.gardenDirector = null`. -/
def stop (p : Page K) : Page K :=
  match p.gardenDirector with
  | some d =>
    let r := retire d p
    { r.2 with gardenDirector := none }
  | none => { p with gardenDirector := none }

/-!
Abstract generation model.  In a run seeded with a single root, every
queued tree is a generation-`g` copy: `trunkHeight = L * r ^ g` and
`branchRatio = r` where `L`, `r` are the root's values.  `AState`
records only the generations, the number of trees drawn so far and the
number of descriptors ever placed; `astep` mirrors `work` (a
generation-`g` tree is discarded exactly when `7 < g`, because
`L * r ^ g < L * r ^ 7 ↔ 7 < g` for `0 < L`, `0 < r < 1`).
-/

/-- Abstract scheduler state: the queued generations, the count of trees
drawn, and the count of descriptors ever placed on the queue. -/
structure AState where
  gens : List Nat
  drawn : Nat
  placed : Nat
  deriving DecidableEq, Repr

/-- Abstract scheduler tick mirroring `work`/`cstep`. -/
def astep (s : AState) : AState :=
  match s.gens with
  | [] => s
  | g :: rest =>
    if 7 < g then ⟨rest, s.drawn, s.placed⟩
    else ⟨rest ++ [g + 1, g + 1], s.drawn + 1, s.placed + 2⟩

/-- Number of scheduler ticks a generation-`g` node costs before it and
all its drawn descendants are gone: itself plus, when it is drawn
(`g ≤ 7`), its whole subtree down to the discarded generation 8. -/
def wgt (g : Nat) : Nat := if 8 ≤ g then 1 else 2 ^ (9 - g) - 1

/-- Number of trees drawn from a generation-`g` node and its
descendants. -/
def drw (g : Nat) : Nat := if 8 ≤ g then 0 else 2 ^ (8 - g) - 1

/-- Total tick cost of a queue of generations. -/
def sumW (gs : List Nat) : Nat := (gs.map wgt).sum

/-- Total draw count of a queue of generations. -/
def sumD (gs : List Nat) : Nat := (gs.map drw).sum

theorem wgt_pos (g : Nat) : 0 < wgt g := by
  unfold wgt
  split
  · exact Nat.one_pos
  · have h9 : 2 ≤ 9 - g := by omega
    have : 2 ^ 2 ≤ 2 ^ (9 - g) := Nat.pow_le_pow_right (by norm_num) h9
    omega

theorem wgt_rec {g : Nat} (h : g ≤ 7) : wgt g = 1 + 2 * wgt (g + 1) := by
  interval_cases g <;> decide

theorem drw_rec {g : Nat} (h : g ≤ 7) : drw g = 1 + 2 * drw (g + 1) := by
  interval_cases g <;> decide

theorem sumW_nil : sumW [] = 0 := rfl

theorem sumW_cons (g : Nat) (gs : List Nat) : sumW (g :: gs) = wgt g + sumW gs := by
  simp [sumW]

theorem sumW_append (gs hs : List Nat) : sumW (gs ++ hs) = sumW gs + sumW hs := by
  simp [sumW]

theorem sumD_cons (g : Nat) (gs : List Nat) : sumD (g :: gs) = drw g + sumD gs := by
  simp [sumD]

theorem sumD_append (gs hs : List Nat) : sumD (gs ++ hs) = sumD gs + sumD hs := by
  simp [sumD]

/-- The complete abstract run: after `sumW gs` ticks the queue is empty,
having drawn `sumD gs` more trees and placed `2 * sumD gs` more
descriptors (every drawn tree places exactly two children). -/
theorem aRun_eq : ∀ n : Nat, ∀ s : AState, sumW s.gens = n →
    astep^[n] s = ⟨[], s.drawn + sumD s.gens, s.placed + 2 * sumD s.gens⟩ := by
  intro n
  induction n with
  | zero =>
    intro s hs
    obtain ⟨gs, dr, pl⟩ := s
    cases gs with
    | nil => simp [sumD]
    | cons g rest =>
      exfalso
      have := wgt_pos g
      rw [sumW_cons] at hs
      omega
  | succ n ih =>
    intro s hs
    obtain ⟨gs, dr, pl⟩ := s
    cases gs with
    | nil => simp [sumW_nil] at hs
    | cons g rest =>
      rw [Function.iterate_succ_apply]
      rw [sumW_cons] at hs
      by_cases hg : 7 < g
      · have hw : wgt g = 1 := by unfold wgt; rw [if_pos (by omega)]
        have hd : drw g = 0 := by unfold drw; rw [if_pos (by omega)]
        have hstep : astep ⟨g :: rest, dr, pl⟩ = ⟨rest, dr, pl⟩ := by
          simp [astep, hg]
        rw [hstep, ih ⟨rest, dr, pl⟩ (by simpa [hw] using by omega : sumW rest = n)]
        simp [sumD_cons, hd]
      · have hg7 : g ≤ 7 := by omega
        have hstep : astep ⟨g :: rest, dr, pl⟩ = ⟨rest ++ [g + 1, g + 1], dr + 1, pl + 2⟩ := by
          simp [astep, hg]
        have hw : sumW (rest ++ [g + 1, g + 1]) = n := by
          rw [sumW_append]
          have := wgt_rec hg7
          simp only [sumW_cons, sumW_nil]
          omega
        rw [hstep, ih _ hw]
        have hd := drw_rec hg7
        simp only [sumD_cons, sumD_append, sumD_cons, sumD]
        refine congrArg₂ _ ?_ ?_ <;> · simp; omega

/-- A queued tree is a generation-`g` descendant of a root with trunk
length `L` and ratio `r`. -/
def TreeGen (L r : K) [Monoid K] (t : Tree K) (g : Nat) : Prop :=
  t.trunkHeight = L * r ^ g ∧ t.branchRatio = r

/-- Simulation relation between the concrete scheduler state and the
abstract generation state. -/
def Sim [Monoid K] (L r : K) (s : CState K) (a : AState) : Prop :=
  List.Forall₂ (TreeGen L r) s.director.trees a.gens ∧
  s.director.maxTrunkHeight = L * r ^ 7 ∧
  s.canvas.length = 3 * a.drawn ∧
  s.placed = a.placed

/-- The threshold test is exactly the generation test: for `0 < L` and
`0 < r < 1`, `L * r ^ g < L * r ^ 7` iff `7 < g`. -/
theorem gen_lt_threshold [LinearOrderedField K] {L r : K} (hL : 0 < L)
    (hr0 : 0 < r) (hr1 : r < 1) (g : Nat) : L * r ^ g < L * r ^ 7 ↔ 7 < g := by
  rw [mul_lt_mul_left hL]
  exact pow_lt_pow_iff_right_of_lt_one₀ hr0 hr1

theorem sim_step [LinearOrderedField K] {L r : K} (hL : 0 < L) (hr0 : 0 < r)
    (hr1 : r < 1) (M : MathEnv K) {s : CState K} {a : AState}
    (h : Sim L r s a) : Sim L r (cstep M s) (astep a) := by
  obtain ⟨⟨trees, maxT, tid⟩, canvas, placed⟩ := s
  obtain ⟨gens, dr, pl⟩ := a
  obtain ⟨hq, hm, hc, hp⟩ := h
  simp only at hq hm hc hp
  subst hm
  cases hq with
  | nil => exact ⟨List.Forall₂.nil, rfl, hc, hp⟩
  | @cons t g rest grest ht hrest =>
    have hcmp : t.trunkHeight < L * r ^ 7 ↔ 7 < g := by
      rw [ht.1]; exact gen_lt_threshold hL hr0 hr1 g
    by_cases h7 : 7 < g
    · have hstep : cstep M ⟨⟨t :: rest, L * r ^ 7, tid⟩, canvas, placed⟩ =
          ⟨⟨rest, L * r ^ 7, tid⟩, canvas, placed⟩ := by
        simp [cstep, hcmp.mpr h7]
      have hastep : astep ⟨g :: grest, dr, pl⟩ = ⟨grest, dr, pl⟩ := by
        simp [astep, h7]
      rw [hstep, hastep]
      exact ⟨hrest, rfl, hc, hp⟩
    · have hstep : cstep M ⟨⟨t :: rest, L * r ^ 7, tid⟩, canvas, placed⟩ =
          ⟨⟨rest ++ [nextLeft M t, nextRight M t], L * r ^ 7, tid⟩,
            canvas ++ drawTree M t, placed + 2⟩ := by
        simp only [cstep]
        rw [if_neg (by rw [hcmp]; exact h7)]
      have hastep : astep ⟨g :: grest, dr, pl⟩ =
          ⟨grest ++ [g + 1, g + 1], dr + 1, pl + 2⟩ := by
        simp [astep, h7]
      rw [hstep, hastep]
      have hchildL : TreeGen L r (nextLeft M t) (g + 1) := by
        refine ⟨?_, ht.2⟩
        show t.trunkHeight * t.branchRatio = L * r ^ (g + 1)
        rw [ht.1, ht.2, pow_succ, mul_assoc]
      have hchildR : TreeGen L r (nextRight M t) (g + 1) := by
        refine ⟨?_, ht.2⟩
        show t.trunkHeight * t.branchRatio = L * r ^ (g + 1)
        rw [ht.1, ht.2, pow_succ, mul_assoc]
      refine ⟨?_, rfl, ?_, by simp [hp]⟩
      · exact List.rel_append hrest
          (List.Forall₂.cons hchildL (List.Forall₂.cons hchildR List.Forall₂.nil))
      · simp only [List.length_append, drawTree, List.length_cons, List.length_nil]
        omega

theorem sim_iterate [LinearOrderedField K] {L r : K} (hL : 0 < L) (hr0 : 0 < r)
    (hr1 : r < 1) (M : MathEnv K) {s : CState K} {a : AState}
    (h : Sim L r s a) : ∀ n : Nat, Sim L r ((cstep M)^[n] s) (astep^[n] a) := by
  intro n
  induction n with
  | zero => exact h
  | succ n ih =>
    rw [Function.iterate_succ_apply', Function.iterate_succ_apply']
    exact sim_step hL hr0 hr1 M ih

/-- Seeding: the initial state of a run from a single root tree `t0`
(director freshly constructed, canvas blank, one descriptor placed)
simulates the abstract state `⟨[0], 0, 1⟩`. -/
theorem sim_init [LinearOrderedField K] (t0 : Tree K) :
    Sim t0.trunkHeight t0.branchRatio ⟨mkDirector [t0], [], 1⟩ ⟨[0], 0, 1⟩ := by
  refine ⟨List.Forall₂.cons ⟨?_, rfl⟩ List.Forall₂.nil, ?_, rfl, rfl⟩
  · rw [pow_zero, mul_one]
  · simp [mkDirector]

/-- `cstep` is `work` plus the ghost counter. -/
theorem cstep_proj [LinearOrderedField K] (M : MathEnv K) (s : CState K) :
    ((cstep M s).director, (cstep M s).canvas) = work M s.director s.canvas := by
  obtain ⟨⟨trees, maxT, tid⟩, canvas, placed⟩ := s
  cases trees with
  | nil => rfl
  | cons t rest =>
    simp only [cstep, work]
    split <;> rfl

theorem cstepN_proj [LinearOrderedField K] (M : MathEnv K) (n : Nat) (s : CState K) :
    (((cstep M)^[n] s).director, ((cstep M)^[n] s).canvas) =
      stepN M n (s.director, s.canvas) := by
  induction n generalizing s with
  | zero => rfl
  | succ n ih =>
    have h1 := ih (cstep M s)
    rw [cstep_proj] at h1
    calc (((cstep M)^[n + 1] s).director, ((cstep M)^[n + 1] s).canvas)
        = (((cstep M)^[n] (cstep M s)).director, ((cstep M)^[n] (cstep M s)).canvas) := by
          rw [Function.iterate_succ_apply]
      _ = stepN M n (work M s.director s.canvas) := h1
      _ = stepN M (n + 1) (s.director, s.canvas) := by
          rw [stepN, stepN, Function.iterate_succ_apply]

/-- Invariant of the abstract queue: generations are nondecreasing from
front to back and any two of them differ by at most one. -/
def AInv (gs : List Nat) : Prop :=
  gs.Sorted (· ≤ ·) ∧ ∀ a ∈ gs, ∀ b ∈ gs, a ≤ b + 1

theorem ainv_step {s : AState} (h : AInv s.gens) : AInv (astep s).gens := by
  obtain ⟨gens, dr, pl⟩ := s
  obtain ⟨hs, hpair⟩ := h
  simp only at hs hpair
  cases gens with
  | nil => exact ⟨hs, hpair⟩
  | cons g rest =>
    have hg_le : ∀ b ∈ rest, g ≤ b := (List.sorted_cons.mp hs).1
    have hs_rest : rest.Sorted (· ≤ ·) := (List.sorted_cons.mp hs).2
    by_cases h7 : 7 < g
    · have : astep ⟨g :: rest, dr, pl⟩ = ⟨rest, dr, pl⟩ := by simp [astep, h7]
      rw [this]
      refine ⟨hs_rest, fun a ha b hb => ?_⟩
      exact hpair a (List.mem_cons_of_mem g ha) b (List.mem_cons_of_mem g hb)
    · have : astep ⟨g :: rest, dr, pl⟩ = ⟨rest ++ [g + 1, g + 1], dr + 1, pl + 2⟩ := by
        simp [astep, h7]
      rw [this]
      constructor
      · rw [List.Sorted, List.pairwise_append]
        refine ⟨hs_rest, ?_, ?_⟩
        · simp
        · intro a ha b hb
          have hag : a ≤ g + 1 :=
            hpair a (List.mem_cons_of_mem g ha) g (List.mem_cons_self g rest)
          simp only [List.mem_cons, List.not_mem_nil, or_false] at hb
          rcases hb with rfl | rfl <;> omega
      · intro a ha b hb
        rcases List.mem_append.mp ha with ha' | ha' <;>
          rcases List.mem_append.mp hb with hb' | hb'
        · exact hpair a (List.mem_cons_of_mem g ha') b (List.mem_cons_of_mem g hb')
        · have : a ≤ g + 1 :=
            hpair a (List.mem_cons_of_mem g ha') g (List.mem_cons_self g rest)
          simp only [List.mem_cons, List.not_mem_nil, or_false] at hb'
          rcases hb' with rfl | rfl <;> omega
        · have : g ≤ b := hg_le b hb'
          simp only [List.mem_cons, List.not_mem_nil, or_false] at ha'
          rcases ha' with rfl | rfl <;> omega
        · simp only [List.mem_cons, List.not_mem_nil, or_false] at ha' hb'
          rcases ha' with rfl | rfl <;> rcases hb' with rfl | rfl <;> omega

theorem ainv_iterate {a : AState} (h : AInv a.gens) (n : Nat) :
    AInv (astep^[n] a).gens := by
  induction n with
  | zero => exact h
  | succ n ih => rw [Function.iterate_succ_apply']; exact ainv_step ih

/-- The trunk lengths of a queue of known generations. -/
theorem forall₂_map_trunkHeight [Monoid K] {L r : K} :
    ∀ {q : List (Tree K)} {gs : List Nat}, List.Forall₂ (TreeGen L r) q gs →
      q.map Tree.trunkHeight = gs.map fun g => L * r ^ g := by
  intro q gs h
  induction h with
  | nil => rfl
  | cons h1 _ ih => simp only [List.map_cons, h1.1, ih]

/-- For each element of the left list of a `Forall₂` there is a related
element of the right list. -/
theorem forall₂_mem_left {α β : Type*} {R : α → β → Prop} :
    ∀ {q : List α} {gs : List β}, List.Forall₂ R q gs →
      ∀ a ∈ q, ∃ g ∈ gs, R a g := by
  intro q gs h
  induction h with
  | nil => simp
  | @cons x g q' gs' h1 _ ih =>
    intro a ha
    rcases List.mem_cons.mp ha with rfl | ha'
    · exact ⟨g, List.mem_cons_self g gs', h1⟩
    · obtain ⟨g', hg', hR⟩ := ih a ha'
      exact ⟨g', List.mem_cons_of_mem g hg', hR⟩

/-- `g ↦ L * r ^ g` is antitone, so a nondecreasing generation list maps
to a nonincreasing trunk-length list. -/
theorem sorted_ge_of_sorted_le [LinearOrderedField K] {L r : K} (hL : 0 < L)
    (hr0 : 0 < r) (hr1 : r < 1) {gs : List Nat} (hs : gs.Sorted (· ≤ ·)) :
    (gs.map fun g => L * r ^ g).Sorted (· ≥ ·) := by
  rw [List.Sorted, List.pairwise_map]
  refine hs.imp ?_
  intro a b hab
  have hpow : r ^ b ≤ r ^ a := by
    rcases eq_or_lt_of_le hab with h | h
    · rw [h]
    · exact ((pow_lt_pow_iff_right_of_lt_one₀ hr0 hr1).mpr h).le
  exact mul_le_mul_of_nonneg_left hpow hL.le

/-!
Concrete abstract runs from a single generation-0 root (one descriptor
placed).  After 127 ticks the drawn generations 0–6 are gone and 128
generation-7 descriptors wait; the 128th tick draws a generation-7
descriptor (its length equals the threshold, and the comparison is
strict); after 255 ticks all 255 trees of generations 0–7 are drawn and
256 generation-8 descriptors wait; ticks 256–510 discard them one by
one without drawing; tick 511 empties the queue.
-/

set_option maxRecDepth 1000000

theorem aRun127 : astep^[127] ⟨[0], 0, 1⟩ = ⟨List.replicate 128 7, 127, 255⟩ := by
  decide

theorem aRun128 : astep^[128] ⟨[0], 0, 1⟩ = ⟨List.replicate 127 7 ++ [8, 8], 128, 257⟩ := by
  decide

theorem aRun255 : astep^[255] ⟨[0], 0, 1⟩ = ⟨List.replicate 256 8, 255, 511⟩ := by
  decide

theorem aRun510 : astep^[510] ⟨[0], 0, 1⟩ = ⟨[8], 255, 511⟩ := by
  decide

theorem aRun511 : astep^[511] ⟨[0], 0, 1⟩ = ⟨[], 255, 511⟩ := by
  decide

/-! The ambient JavaScript `Math` object over the exact reals, and the
configuration of the spec's worked scenario: `trunkHeight = 100`,
`branchRatio = 0.7`, `branchAngle = π/6`, incline `0`, root origin
`(100, 100)`. -/

noncomputable def realMath : MathEnv ℝ := ⟨Real.pi, Real.cos, Real.sin⟩

noncomputable def c1Tree : Tree ℝ := ⟨⟨100, 100⟩, 100, 7 / 10, Real.pi / 6, 0⟩

noncomputable def c1Dir : GardenDirector ℝ := mkDirector [c1Tree]

noncomputable def c1State : CState ℝ := ⟨c1Dir, [], 1⟩

theorem c1_sim (n : Nat) :
    Sim (100 : ℝ) (7 / 10) ((cstep realMath)^[n] c1State) (astep^[n] ⟨[0], 0, 1⟩) :=
  sim_iterate (by norm_num [c1Tree]) (by norm_num [c1Tree]) (by norm_num [c1Tree])
    realMath (sim_init c1Tree) n

/-- A `Math` stand-in over `ℚ` for executable witnesses; the scheduler's
queue discipline does not depend on its values. -/
def ratMath : MathEnv ℚ := ⟨0, fun _ => 0, fun _ => 0⟩

/-! Concrete `ℚ` fixtures for witnesses. -/

/-- A root tree with trunk length `1` and ratio `1/2`. -/
def wTree : Tree ℚ := ⟨⟨0, 0⟩, 1, 1 / 2, 0, 0⟩

/-- A tree below the threshold `1 * (1/2) ^ 7 = 1/128`. -/
def wTiny : Tree ℚ := ⟨⟨0, 0⟩, 1 / 256, 1 / 2, 0, 0⟩

/-- A tree exactly at the threshold `1/128` (generation 7 of `wTree`). -/
def wEdge : Tree ℚ := ⟨⟨0, 0⟩, 1 / 128, 1 / 2, 0, 0⟩

/-- A director holding the tiny tree, threshold `1/128`. -/
def wDirTiny : GardenDirector ℚ := ⟨[wTiny], 1 / 128, none⟩

/-- A director holding the root tree, threshold `1/128`. -/
def wDirBig : GardenDirector ℚ := ⟨[wTree], 1 / 128, none⟩

/-- A director holding the threshold-length tree, threshold `1/128`. -/
def wDirEdge : GardenDirector ℚ := ⟨[wEdge], 1 / 128, none⟩

/-!
## C5
-/

/-- C5: for every descriptor, the computed trunk endpoint `p1` equals
the origin translated by the unit vector rotated by
`(incline − π/2)` radians and scaled by `trunkLength`:
`p1 = (origin.x + cos(incline − π/2)·trunkLength,
origin.y + sin(incline − π/2)·trunkLength)`. -/
theorem c5_trunk_endpoint (t : Tree ℝ) :
    t.p1 realMath =
      ⟨t.root.x + Real.cos (t.treeIncline - Real.pi / 2) * t.trunkHeight,
        t.root.y + Real.sin (t.treeIncline - Real.pi / 2) * t.trunkHeight⟩ := by
  simp only [Tree.p1, Tree.p0, realMath, Point.mk.injEq]
  exact ⟨by ring, by ring⟩

/-!
## C6
-/

/-- C6: with `branchLen = trunkLength × branchRatio`, the left child
endpoint `p2` is `p1` offset by `(−sin(a)·branchLen, −cos(a)·branchLen)`
with `a = branchAngle/2 − incline`, and the right child endpoint `p3` is
`p1` offset by `(+sin(a)·branchLen, −cos(a)·branchLen)` with
`a = branchAngle/2 + incline`. -/
theorem c6_child_endpoints (t : Tree ℝ) :
    t.p2 realMath =
      ⟨(t.p1 realMath).x -
          Real.sin (t.branchAngle / 2 - t.treeIncline) * (t.trunkHeight * t.branchRatio),
        (t.p1 realMath).y -
          Real.cos (t.branchAngle / 2 - t.treeIncline) * (t.trunkHeight * t.branchRatio)⟩ ∧
    t.p3 realMath =
      ⟨(t.p1 realMath).x +
          Real.sin (t.branchAngle / 2 + t.treeIncline) * (t.trunkHeight * t.branchRatio),
        (t.p1 realMath).y -
          Real.cos (t.branchAngle / 2 + t.treeIncline) * (t.trunkHeight * t.branchRatio)⟩ := by
  constructor <;> · simp only [Tree.p2, Tree.p3, realMath]

/-!
## C4
-/

/-- C4: the termination threshold is computed once at construction as
`rootTrunkLength × branchRatio^7` (and `work` never changes it), and on
every `step()` whose dequeued descriptor has `trunkLength` below the
threshold, the descriptor is discarded: the canvas is unchanged and no
children are enqueued. -/
theorem c4_threshold_and_discard {K : Type*} [LinearOrderedField K] :
    (∀ t0 : Tree K,
        (mkDirector [t0]).maxTrunkHeight = t0.trunkHeight * t0.branchRatio ^ 7) ∧
    (∀ (M : MathEnv K) (d : GardenDirector K) (c : List (Seg K)),
        (work M d c).1.maxTrunkHeight = d.maxTrunkHeight) ∧
    (∀ (M : MathEnv K) (d : GardenDirector K) (c : List (Seg K)) (t : Tree K)
        (rest : List (Tree K)), d.trees = t :: rest →
        t.trunkHeight < d.maxTrunkHeight →
        work M d c = ({ d with trees := rest }, c)) := by
  refine ⟨fun t0 => by simp [mkDirector], fun M d c => ?_, fun M d c t rest hq hlt => ?_⟩
  · unfold work
    match d, d.trees with
    | d, [] => rfl
    | d, t :: rest => dsimp only; split <;> rfl
  · unfold work
    rw [hq]
    dsimp only
    rw [if_pos hlt]

/-- Witness for C4: the tiny tree (length `1/256`, threshold `1/128`) is
dequeued and discarded: canvas untouched, no children. -/
theorem c4_threshold_and_discard_witness :
    work ratMath wDirTiny [] = ({ wDirTiny with trees := [] }, []) :=
  c4_threshold_and_discard.2.2 ratMath wDirTiny [] wTiny [] rfl
    (by norm_num [wTiny, wDirTiny])

/-!
## C7
-/

/-- C7: every pair of children spawned by a `step()` inherits the
parent's `branchRatio` and `branchAngle` unchanged, has
`trunkLength = parent.trunkLength × branchRatio`, has the parent's
computed `p1` as origin, has incline `parent.incline ∓ branchAngle/2`
(left subtracts, right adds), and both are appended at the tail of the
queue (left before right). -/
theorem c7_child_descriptors {K : Type*} [LinearOrderedField K] (M : MathEnv K)
    (d : GardenDirector K) (c : List (Seg K)) (t : Tree K) (rest : List (Tree K))
    (hq : d.trees = t :: rest) (hge : ¬ t.trunkHeight < d.maxTrunkHeight) :
    (work M d c).1.trees = rest ++ [nextLeft M t, nextRight M t] ∧
    (nextLeft M t).branchRatio = t.branchRatio ∧
    (nextRight M t).branchRatio = t.branchRatio ∧
    (nextLeft M t).branchAngle = t.branchAngle ∧
    (nextRight M t).branchAngle = t.branchAngle ∧
    (nextLeft M t).trunkHeight = t.trunkHeight * t.branchRatio ∧
    (nextRight M t).trunkHeight = t.trunkHeight * t.branchRatio ∧
    (nextLeft M t).root = t.p1 M ∧
    (nextRight M t).root = t.p1 M ∧
    (nextLeft M t).treeIncline = t.treeIncline - t.branchAngle / 2 ∧
    (nextRight M t).treeIncline = t.treeIncline + t.branchAngle / 2 := by
  refine ⟨?_, rfl, rfl, rfl, rfl, rfl, rfl, rfl, rfl, rfl, rfl⟩
  unfold work
  rw [hq]
  dsimp only
  rw [if_neg hge]

/-- Witness for C7 at the root tree (length `1`, threshold `1/128`). -/
theorem c7_child_descriptors_witness :
    (work ratMath wDirBig []).1.trees = [] ++ [nextLeft ratMath wTree, nextRight ratMath wTree] ∧
    (nextLeft ratMath wTree).branchRatio = wTree.branchRatio ∧
    (nextRight ratMath wTree).branchRatio = wTree.branchRatio ∧
    (nextLeft ratMath wTree).branchAngle = wTree.branchAngle ∧
    (nextRight ratMath wTree).branchAngle = wTree.branchAngle ∧
    (nextLeft ratMath wTree).trunkHeight = wTree.trunkHeight * wTree.branchRatio ∧
    (nextRight ratMath wTree).trunkHeight = wTree.trunkHeight * wTree.branchRatio ∧
    (nextLeft ratMath wTree).root = wTree.p1 ratMath ∧
    (nextRight ratMath wTree).root = wTree.p1 ratMath ∧
    (nextLeft ratMath wTree).treeIncline = wTree.treeIncline - wTree.branchAngle / 2 ∧
    (nextRight ratMath wTree).treeIncline = wTree.treeIncline + wTree.branchAngle / 2 :=
  c7_child_descriptors ratMath wDirBig [] wTree [] rfl
    (by norm_num [wTree, wDirBig])

/-!
## C9
-/

/-- C9: the size cutoff is a strict less-than: a dequeued descriptor
whose `trunkLength` exactly equals the threshold is drawn and spawns two
children; and in exact arithmetic, for a root with positive length and
ratio in `(0,1)`, a generation-7 descendant (length
`root × ratio^7`) is not below the threshold while a generation-8 one
(length `root × ratio^8`) is. -/
theorem c9_strict_threshold {K : Type*} [LinearOrderedField K] (M : MathEnv K) :
    (∀ (d : GardenDirector K) (c : List (Seg K)) (t : Tree K) (rest : List (Tree K)),
        d.trees = t :: rest → t.trunkHeight = d.maxTrunkHeight →
        work M d c =
          ({ d with trees := rest ++ [nextLeft M t, nextRight M t] }, c ++ drawTree M t)) ∧
    (∀ t0 : Tree K, 0 < t0.trunkHeight → 0 < t0.branchRatio → t0.branchRatio < 1 →
      ∀ t : Tree K,
        (t.trunkHeight = t0.trunkHeight * t0.branchRatio ^ 7 →
          ¬ t.trunkHeight < (mkDirector [t0]).maxTrunkHeight) ∧
        (t.trunkHeight = t0.trunkHeight * t0.branchRatio ^ 8 →
          t.trunkHeight < (mkDirector [t0]).maxTrunkHeight)) := by
  constructor
  · intro d c t rest hq ht
    unfold work
    rw [hq]
    dsimp only
    rw [if_neg (by rw [ht]; exact lt_irrefl _)]
  · intro t0 hL hr0 hr1 t
    have hmax : (mkDirector [t0]).maxTrunkHeight = t0.trunkHeight * t0.branchRatio ^ 7 := by
      simp [mkDirector]
    constructor
    · intro ht
      rw [ht, hmax]
      exact lt_irrefl _
    · intro ht
      rw [ht, hmax]
      exact (gen_lt_threshold hL hr0 hr1 8).mpr (by omega)

/-- Witness for C9: a descriptor whose length equals the threshold
`1/128` is drawn and spawns children, and the generation-7 /
generation-8 dichotomy at `t0 = wTree`. -/
theorem c9_strict_threshold_witness :
    work ratMath wDirEdge [] =
      ({ trees := [] ++ [nextLeft ratMath wEdge, nextRight ratMath wEdge],
          maxTrunkHeight := 1 / 128, timerId := none },
        [] ++ drawTree ratMath wEdge) ∧
    (¬ wEdge.trunkHeight < (mkDirector [wTree]).maxTrunkHeight) ∧
    wTiny.trunkHeight < (mkDirector [wTree]).maxTrunkHeight := by
  refine ⟨?_, ?_, ?_⟩
  · exact (c9_strict_threshold ratMath).1 wDirEdge [] wEdge [] rfl rfl
  · exact ((c9_strict_threshold ratMath).2 wTree (by norm_num [wTree])
      (by norm_num [wTree]) (by norm_num [wTree]) wEdge).1 (by norm_num [wTree, wEdge])
  · exact ((c9_strict_threshold ratMath).2 wTree (by norm_num [wTree])
      (by norm_num [wTree]) (by norm_num [wTree]) wTiny).2 (by norm_num [wTree, wTiny])

/-!
## C1
-/

/-- C1, refuted: in the spec's scenario (trunk 100, ratio 0.7, angle
`π/6`, incline 0, origin (100,100)) the first 127 ticks draw the 127
trees of generations 0–6, after which the queue holds only generation-7
descriptors of length exactly `100×0.7^7`; the 128th tick draws one of
them (canvas grows from `3·127` to `3·128` segments) and spawns its two
children (queue grows from 128 to 129) — so generation-7 descriptors are
not discarded without drawing, contradicting the claim. -/
theorem c1_refuted :
    (∀ t ∈ (stepN realMath 127 (c1Dir, [])).1.trees,
        t.trunkHeight = 100 * (7 / 10 : ℝ) ^ 7) ∧
    (stepN realMath 127 (c1Dir, [])).1.trees.length = 128 ∧
    (stepN realMath 127 (c1Dir, [])).2.length = 3 * 127 ∧
    (stepN realMath 128 (c1Dir, [])).2.length = 3 * 128 ∧
    (stepN realMath 128 (c1Dir, [])).1.trees.length = 129 := by
  have p127 : (((cstep realMath)^[127] c1State).director,
      ((cstep realMath)^[127] c1State).canvas) = stepN realMath 127 (c1Dir, []) :=
    cstepN_proj realMath 127 c1State
  have p128 : (((cstep realMath)^[128] c1State).director,
      ((cstep realMath)^[128] c1State).canvas) = stepN realMath 128 (c1Dir, []) :=
    cstepN_proj realMath 128 c1State
  have h127 := c1_sim 127
  have h128 := c1_sim 128
  rw [aRun127] at h127
  rw [aRun128] at h128
  rw [← p127, ← p128]
  refine ⟨?_, ?_, h127.2.2.1, h128.2.2.1, ?_⟩
  · intro t ht
    obtain ⟨g, hg, hR⟩ := forall₂_mem_left h127.1 t ht
    rw [List.eq_of_mem_replicate hg] at hR
    exact hR.1
  · have hlen := h127.1.length_eq
    simpa using hlen
  · have hlen := h128.1.length_eq
    simpa using hlen

/-- C1, as amended: in the spec's scenario the threshold is
`100×0.7^7`, generations 0 through 7 are drawn (255 trees, `3·255`
segments after 255 ticks), the queue then holds exactly the 256
generation-8 descriptors (length `100×0.7^8`), and they are all
discarded without drawing (after 511 ticks the queue is empty and the
canvas still has `3·255` segments). -/
theorem c1_generations_drawn :
    c1Dir.maxTrunkHeight = 100 * (7 / 10 : ℝ) ^ 7 ∧
    (stepN realMath 255 (c1Dir, [])).2.length = 3 * 255 ∧
    (stepN realMath 255 (c1Dir, [])).1.trees.length = 256 ∧
    (∀ t ∈ (stepN realMath 255 (c1Dir, [])).1.trees,
        t.trunkHeight = 100 * (7 / 10 : ℝ) ^ 8) ∧
    (stepN realMath 511 (c1Dir, [])).1.trees = [] ∧
    (stepN realMath 511 (c1Dir, [])).2.length = 3 * 255 := by
  have p255 : (((cstep realMath)^[255] c1State).director,
      ((cstep realMath)^[255] c1State).canvas) = stepN realMath 255 (c1Dir, []) :=
    cstepN_proj realMath 255 c1State
  have p511 : (((cstep realMath)^[511] c1State).director,
      ((cstep realMath)^[511] c1State).canvas) = stepN realMath 511 (c1Dir, []) :=
    cstepN_proj realMath 511 c1State
  have h255 := c1_sim 255
  have h511 := c1_sim 511
  rw [aRun255] at h255
  rw [aRun511] at h511
  rw [← p255, ← p511]
  refine ⟨by simp [c1Dir, mkDirector, c1Tree], h255.2.2.1, ?_, ?_,
    List.forall₂_nil_right_iff.mp h511.1, h511.2.2.1⟩
  · have hlen := h255.1.length_eq
    simpa using hlen
  · intro t ht
    obtain ⟨g, hg, hR⟩ := forall₂_mem_left h255.1 t ht
    rw [List.eq_of_mem_replicate hg] at hR
    exact hR.1

/-!
## C2
-/

/-- C2, refuted: the spec's scenario root (trunk 100, ratio 0.7 — a
positive length and a ratio in `(0,1)`) places `511 = 2^9 − 1`
descriptors on the queue in total, which exceeds the claimed bound
`2^8 − 1 = 255`. -/
theorem c2_refuted :
    0 < c1Tree.trunkHeight ∧ 0 < c1Tree.branchRatio ∧ c1Tree.branchRatio < 1 ∧
    ((cstep realMath)^[511] c1State).placed = 511 ∧ ¬ (511 : ℕ) ≤ 2 ^ 8 - 1 := by
  refine ⟨by norm_num [c1Tree], by norm_num [c1Tree], by norm_num [c1Tree], ?_, by norm_num⟩
  have h := c1_sim 511
  rw [aRun511] at h
  exact h.2.2.2

/-- C2, as amended: for every root with positive `trunkLength` and
`branchRatio` in `(0,1)`, 511 `step()` calls empty the queue, and the
total number of descriptors ever placed on it is at most
`2^9 − 1 = 511` (generations 0 through 8: generation 7 sits exactly at
the threshold, and the strict comparison draws it, so its generation-8
children are placed before being discarded). -/
theorem c2_termination_bound {K : Type*} [LinearOrderedField K] (M : MathEnv K)
    (t0 : Tree K) (hL : 0 < t0.trunkHeight) (hr0 : 0 < t0.branchRatio)
    (hr1 : t0.branchRatio < 1) :
    ((cstep M)^[511] ⟨mkDirector [t0], [], 1⟩).director.trees = [] ∧
    ((cstep M)^[511] ⟨mkDirector [t0], [], 1⟩).placed ≤ 2 ^ 9 - 1 := by
  have h := sim_iterate hL hr0 hr1 M (sim_init t0) 511
  rw [aRun511] at h
  exact ⟨List.forall₂_nil_right_iff.mp h.1, by rw [h.2.2.2]; decide⟩

/-- Witness for C2 (amended) at root `wTree` (trunk 1, ratio 1/2). -/
theorem c2_termination_bound_witness :
    ((cstep ratMath)^[511] ⟨mkDirector [wTree], [], 1⟩).director.trees = [] ∧
    ((cstep ratMath)^[511] ⟨mkDirector [wTree], [], 1⟩).placed ≤ 2 ^ 9 - 1 :=
  c2_termination_bound ratMath wTree (by norm_num [wTree]) (by norm_num [wTree])
    (by norm_num [wTree])

/-!
## C3
-/

/-- A fresh page: no director, blank canvas, no intervals. -/
def emptyPage : Page ℚ := ⟨none, [], [], 0⟩

/-- C3 fails on the code: `run()` registers a new 10-unit interval
unconditionally, so a second `start()` leaves TWO active intervals
(ids 0 and 1), not one; the director's `timerId` keeps only the second,
so the subsequent `stop()` cancels only interval 1 and interval 0
stays active forever. -/
theorem c3_double_start_two_intervals :
    (start [wTree] (start [wTree] emptyPage)).intervals = [(0, 10), (1, 10)] ∧
    (start [wTree] (start [wTree] emptyPage)).gardenDirector =
      some ⟨[wTree], wTree.trunkHeight * wTree.branchRatio ^ 7, some 1⟩ ∧
    (stop (start [wTree] (start [wTree] emptyPage))).intervals = [(0, 10)] :=
  ⟨rfl, rfl, rfl⟩

/-!
## C8
-/

/-- The intervals a well-formed page carries: exactly the one its
director's `timerId` records (at the fixed 10-unit delay), if any. -/
def pageTimers (p : Page K) : List (Nat × Nat) :=
  match p.gardenDirector with
  | some d =>
    match d.timerId with
    | some id => [(id, 10)]
    | none => []
  | none => []

/-- The states the `start`/`stop`/tick lifecycle produces (running, idle,
or mid-grown tree): the interval registry matches the director's timer,
and a page with no director has a blank canvas. -/
def WellFormed (p : Page K) : Prop :=
  p.intervals = pageTimers p ∧ (p.gardenDirector = none → p.canvas = [])

/-- C8, refuted as stated: "regardless of the prior state" fails on the
reachable prior state `start(); start()` (a fresh page started twice):
`stop()` cancels only the director's recorded interval 1, so the 10-unit
interval 0 is still registered afterwards — the scheduler is still
running. -/
theorem c8_refuted :
    (stop (start [wTree] (start [wTree] emptyPage))).intervals = [(0, 10)] ∧
    (stop (start [wTree] (start [wTree] emptyPage))).intervals ≠ [] :=
  ⟨rfl, by decide⟩

/-- C8, as amended: after `stop()` on any well-formed prior state — one
whose interval registry matches the director's `timerId`, i.e. the
running, idle and mid-grown states of the single-start lifecycle
(double-start states, where the code leaks an uncancellable interval,
are excluded) — no director remains, no interval is active, the canvas
is blank, `retire` empties the pending queue, and a second `stop()`
produces the same end state as the first (so `stop()` when not running
is safe). -/
theorem c8_stop_resets {K : Type*} (p : Page K) (h : WellFormed p) :
    (stop p).gardenDirector = none ∧ (stop p).canvas = [] ∧ (stop p).intervals = [] ∧
    stop (stop p) = stop p ∧
    ∀ (d : GardenDirector K) (q : Page K), (retire d q).1.trees = [] := by
  obtain ⟨od, canvas, intervals, nid⟩ := p
  obtain ⟨hwf, hblank⟩ := h
  cases od with
  | none =>
    simp only [pageTimers] at hwf
    have hc : canvas = [] := hblank rfl
    subst hwf hc
    exact ⟨rfl, rfl, rfl, rfl, fun d q => rfl⟩
  | some d =>
    obtain ⟨trees, maxT, tid⟩ := d
    cases tid with
    | none =>
      simp only [pageTimers] at hwf
      subst hwf
      exact ⟨rfl, rfl, rfl, rfl, fun d q => rfl⟩
    | some id =>
      simp only [pageTimers] at hwf
      subst hwf
      refine ⟨rfl, rfl, ?_, rfl, fun d q => rfl⟩
      simp [stop, retire, clearInterval]

/-- A running mid-grown page over `ℚ`: a director with a pending tree
and timer 5, one stroked segment on the canvas, interval 5 registered. -/
def wPage : Page ℚ :=
  ⟨some ⟨[wTree], 1 / 128, some 5⟩, [⟨"#333344", ⟨0, 0⟩, ⟨0, 1⟩⟩], [(5, 10)], 6⟩

/-- Witness for C8 at the concrete running page `wPage`. -/
theorem c8_stop_resets_witness :
    (stop wPage).gardenDirector = none ∧ (stop wPage).canvas = [] ∧
    (stop wPage).intervals = [] ∧ stop (stop wPage) = stop wPage ∧
    ∀ (d : GardenDirector ℚ) (q : Page ℚ), (retire d q).1.trees = [] :=
  c8_stop_resets wPage ⟨rfl, fun h => nomatch h⟩

/-!
## C10
-/

/-- C10: in every queue state reachable from the single-root queue by
`step()` calls, each queued tree is a generation-`g` descendant of the
root, the generation list is nondecreasing from front to back with any
two entries within one of each other (at most two consecutive
generations, breadth-first), and consequently the `trunkLength`s are
nonincreasing from front to back. -/
theorem c10_queue_monotone {K : Type*} [LinearOrderedField K] (M : MathEnv K)
    (t0 : Tree K) (hL : 0 < t0.trunkHeight) (hr0 : 0 < t0.branchRatio)
    (hr1 : t0.branchRatio < 1) (n : Nat) :
    ∃ gs : List Nat,
      List.Forall₂ (TreeGen t0.trunkHeight t0.branchRatio)
        (stepN M n (mkDirector [t0], [])).1.trees gs ∧
      gs.Sorted (· ≤ ·) ∧
      (∀ a ∈ gs, ∀ b ∈ gs, a ≤ b + 1) ∧
      ((stepN M n (mkDirector [t0], [])).1.trees.map Tree.trunkHeight).Sorted (· ≥ ·) := by
  have hsim := sim_iterate hL hr0 hr1 M (sim_init t0) n
  have hd : ((cstep M)^[n] ⟨mkDirector [t0], [], 1⟩).director =
      (stepN M n (mkDirector [t0], [])).1 :=
    congrArg Prod.fst (cstepN_proj M n ⟨mkDirector [t0], [], 1⟩)
  have hinv : AInv (astep^[n] ⟨[0], 0, 1⟩).gens := by
    refine ainv_iterate ⟨List.sorted_singleton 0, ?_⟩ n
    intro a ha b hb
    simp only [List.mem_singleton] at ha hb
    omega
  refine ⟨(astep^[n] ⟨[0], 0, 1⟩).gens, ?_, hinv.1, hinv.2, ?_⟩
  · rw [← hd]
    exact hsim.1
  · rw [← hd, forall₂_map_trunkHeight hsim.1]
    exact sorted_ge_of_sorted_le hL hr0 hr1 hinv.1

/-- Witness for C10 at root `wTree` after 3 steps. -/
theorem c10_queue_monotone_witness :
    ∃ gs : List Nat,
      List.Forall₂ (TreeGen wTree.trunkHeight wTree.branchRatio)
        (stepN ratMath 3 (mkDirector [wTree], [])).1.trees gs ∧
      gs.Sorted (· ≤ ·) ∧
      (∀ a ∈ gs, ∀ b ∈ gs, a ≤ b + 1) ∧
      ((stepN ratMath 3 (mkDirector [wTree], [])).1.trees.map Tree.trunkHeight).Sorted
        (· ≥ ·) :=
  c10_queue_monotone ratMath wTree (by norm_num [wTree]) (by norm_num [wTree])
    (by norm_num [wTree]) 3

end FractalTree
